import Mathlib

/-!
Verification development for the `aileron` crate's option parser
(`src/lib.rs`).  The crate's only original logic is the `syn`-based parser
in `impl Parse for IncludeAvroInput` together with the four value parsers
`parse_bool`, `parse_usize`, `parse_vec` and `parse_enum`.  We embed that
parser shallowly: the `syn` parse stream is modelled at the granularity of
the `input.parse::<T>()` calls the source makes (a list of atoms: a string
literal, a comma, an identifier, an `=` sign, or an already-parsed
expression), and each Rust function becomes a Lean function on that model.
`syn` expressions are modelled by the inductive `Expr`, covering exactly the
shapes the source inspects (literals, arrays, paths, unary negation) plus a
catch-all.  Rust panics (the `unwrap` in `parse_enum`) are modelled by an
outer `Option` layer: `none` is a panic.
-/

namespace Aileron

/-- Model of `syn::Error`: only the message matters to the claims; spans are
dropped. -/
structure SynError where
  message : String
deriving Repr, DecidableEq

/-- Model of `rsgen_avro::ImplementAvroSchema` (external enum consumed by
`parse_enum`, src/lib.rs lines 98-113). -/
inductive ImplementAvroSchema where
  | None
  | Derive
  | CopyBuildSchema
deriving Repr, DecidableEq

/-- Model of a parsed `syn::Expr` restricted to the shapes `src/lib.rs`
inspects:
* `litBool b`  — `Expr::Lit` with `Lit::Bool` (src/lib.rs line 52);
* `litInt n`   — `Expr::Lit` with `Lit::Int` (line 67); in expression
  position a `syn` integer literal carries no sign, so `n : Nat` holds the
  base-ten digits' value;
* `litStr s`   — `Expr::Lit` with `Lit::Str` (line 82);
* `litOther`   — any other literal kind (char, float, byte string, ...);
* `array es`   — `Expr::Array` (line 78);
* `path segs`  — `Expr::Path` (line 100), `segs` the identifiers of its
  segments; `syn` expression parsing only ever produces a non-empty
  segment list, captured by `Expr.wf` below;
* `neg e`      — `Expr::Unary` with `UnOp::Neg`, the parse of a negative
  literal such as `-5`;
* `other`      — every remaining expression kind. -/
inductive Expr where
  | litBool (b : Bool)
  | litInt (n : Nat)
  | litStr (s : String)
  | litOther
  | array (es : List Expr)
  | path (segs : List String)
  | neg (e : Expr)
  | other
deriving Repr

mutual

/-- Well-formedness of an expression actually produced by `syn` expression
parsing: every `Expr::Path` has at least one segment (a `syn::Path` cannot
be parsed from an empty token sequence). -/
def Expr.wf : Expr → Bool
  | .litBool _ => true
  | .litInt _ => true
  | .litStr _ => true
  | .litOther => true
  | .array es => Expr.wfList es
  | .path segs => !segs.isEmpty
  | .neg e => e.wf
  | .other => true

/-- All expressions in the list are well-formed. -/
def Expr.wfList : List Expr → Bool
  | [] => true
  | e :: rest => e.wf && Expr.wfList rest

end

/-- Is the expression a boolean literal (the shape `parse_bool` accepts)? -/
def Expr.isBoolLit : Expr → Bool
  | .litBool _ => true
  | _ => false

/-- Is the expression an integer literal (the shape `parse_usize` accepts)? -/
def Expr.isIntLit : Expr → Bool
  | .litInt _ => true
  | _ => false

/-- Is the expression an array literal (the shape `parse_vec` accepts)? -/
def Expr.isArray : Expr → Bool
  | .array _ => true
  | _ => false

/-- Is the expression a path (the shape `parse_enum` accepts)? -/
def Expr.isPath : Expr → Bool
  | .path _ => true
  | _ => false

/-- The string value of a string-literal expression, `none` otherwise.
Used to state which array elements `parse_vec` keeps. -/
def Expr.strLitVal : Expr → Option String
  | .litStr s => some s
  | _ => none

/-- Model of `rsgen_avro::GeneratorBuilder` as a record of the options the
macro can set.  `none` / `[]`-free `Option` fields mean "unset: the external
generator's own default applies".  The builder methods
(`precision`, `use_avro_rs_unions`, `use_chrono_dates`, `derive_builders`,
`extra_derives`, `implement_avro_schema`) each set their field. -/
structure GeneratorBuilder where
  precision : Option Nat
  use_avro_rs_unions : Option Bool
  use_chrono_dates : Option Bool
  derive_builders : Option Bool
  extra_derives : Option (List String)
  implement_avro_schema : Option ImplementAvroSchema
deriving Repr, DecidableEq

/-- `GeneratorBuilder::default()` (src/lib.rs line 21): every option unset. -/
def GeneratorBuilder.default : GeneratorBuilder :=
  { precision := none
    use_avro_rs_unions := none
    use_chrono_dates := none
    derive_builders := none
    extra_derives := none
    implement_avro_schema := none }

/-- Model of the parsed macro input `struct IncludeAvroInput`
(src/lib.rs lines 13-16). -/
structure IncludeAvroInput where
  path : String
  builder : GeneratorBuilder
deriving Repr, DecidableEq

/-- `fn parse_bool` (src/lib.rs lines 50-63): a boolean literal yields its
value, anything else is the fixed error `Expected boolean (true/false)`
(attached to the value's span; the message does not mention the key). -/
def parse_bool : Expr → Except SynError Bool
  | .litBool b => .ok b
  | _ => .error ⟨"Expected boolean (true/false)"⟩

/-- `usize::MAX` on the 64-bit targets the crate is built for. -/
def USIZE_MAX : Nat := 2 ^ 64 - 1

/-- Model of `LitInt::base10_parse::<usize>()` (src/lib.rs line 71): the
literal's base-ten value if it fits in `usize`, otherwise the overflow
error produced by `usize::from_str`. -/
def base10_parse (n : Nat) : Except SynError Nat :=
  if n ≤ USIZE_MAX then .ok n
  else .error ⟨"number too large to fit in target type"⟩

/-- `fn parse_usize` (src/lib.rs lines 65-75): an integer literal is parsed
in base ten into a `usize`; any other expression (including the unary-minus
form a negative literal parses to) is `Expected integer`. -/
def parse_usize : Expr → Except SynError Nat
  | .litInt n => base10_parse n
  | _ => .error ⟨"Expected integer"⟩

/-- The element loop of `fn parse_vec` (src/lib.rs lines 79-88): push the
value of every string-literal element, silently skip every other element. -/
def collectStrs : List Expr → List String
  | [] => []
  | .litStr s :: rest => s :: collectStrs rest
  | _ :: rest => collectStrs rest

/-- `fn parse_vec` (src/lib.rs lines 77-96): an array literal yields the
values of its string-literal elements in order, anything else errors. -/
def parse_vec : Expr → Except SynError (List String)
  | .array es => .ok (collectStrs es)
  | _ => .error ⟨"Expected array of strings: [\"A\", \"B\"]"⟩

/-- The variant match of `fn parse_enum` (src/lib.rs lines 104-112),
applied to the last path segment's identifier. -/
def variantOf (ident : String) : Except SynError ImplementAvroSchema :=
  if ident = "None" then .ok ImplementAvroSchema.None
  else if ident = "Derive" then .ok ImplementAvroSchema.Derive
  else if ident = "CopyBuildSchema" then .ok ImplementAvroSchema.CopyBuildSchema
  else .error ⟨"Unknown variant for ImplementAvroSchema"⟩

/-- `fn parse_enum` (src/lib.rs lines 98-113).  The source takes
`p.path.segments.last().unwrap()`: `last()` on an empty segment list is
`None` and the `unwrap` panics, modelled by the outer `Option`'s `none`.
A non-path expression is `Expected Enum variant`. -/
def parse_enum : Expr → Option (Except SynError ImplementAvroSchema)
  | .path segs =>
    match segs.getLast? with
    | some ident => some (variantOf ident)
    | none => none
  | _ => some (.error ⟨"Expected Enum variant"⟩)

/-- The key dispatch of `IncludeAvroInput::parse` (src/lib.rs lines 33-43):
a recognized key applies its value parser and sets the builder field, an
unrecognized key is `Unknown flag: {key}`.  A Rust `match` on
`key.to_string().as_str()` is sequential string comparison, modelled by the
`if`-chain.  The outer `Option` propagates the possible panic of
`parse_enum`. -/
def applyKey (builder : GeneratorBuilder) (key : String) (val : Expr) :
    Option (Except SynError GeneratorBuilder) :=
  if key = "precision" then
    some ((parse_usize val).map fun n => { builder with precision := some n })
  else if key = "use_avro_rs_unions" then
    some ((parse_bool val).map fun b => { builder with use_avro_rs_unions := some b })
  else if key = "use_chrono_dates" then
    some ((parse_bool val).map fun b => { builder with use_chrono_dates := some b })
  else if key = "derive_builders" then
    some ((parse_bool val).map fun b => { builder with derive_builders := some b })
  else if key = "extra_derives" then
    some ((parse_vec val).map fun l => { builder with extra_derives := some l })
  else if key = "impl_avro_schema" then
    (parse_enum val).map fun r =>
      r.map fun v => { builder with implement_avro_schema := some v }
  else
    some (.error ⟨"Unknown flag: " ++ key⟩)

/-- One atom of the modelled `syn` parse stream: each constructor is what
one of the source's `input.parse::<T>()` calls consumes (a string literal,
`Token![,]`, an `Ident`, `Token![=]`, or an `Expr`). -/
inductive Atom where
  | litStr (s : String)
  | comma
  | ident (s : String)
  | eq
  | expr (e : Expr)
deriving Repr

/-- The option loop of `IncludeAvroInput::parse` (src/lib.rs lines 23-44):
`while input.peek(Token![,])` consume the comma; `if input.is_empty()`
break; then parse an `Ident`, a `Token![=]` and an `Expr` and dispatch on
the key.  A stream whose head is not a comma leaves the loop with the
stream untouched.  The outer `Option`'s `none` is a panic inside
`parse_enum`. -/
def parseOptions (b : GeneratorBuilder) :
    List Atom → Option (Except SynError (GeneratorBuilder × List Atom))
  | .comma :: [] => some (.ok (b, []))
  | .comma :: .ident key :: .eq :: .expr val :: rest =>
    match applyKey b key val with
    | none => none
    | some (.error e) => some (.error e)
    | some (.ok b2) => parseOptions b2 rest
  | .comma :: .ident _ :: .eq :: _ => some (.error ⟨"expected expression"⟩)
  | .comma :: .ident _ :: _ => some (.error ⟨"expected `=`"⟩)
  | .comma :: _ => some (.error ⟨"expected identifier"⟩)
  | atoms => some (.ok (b, atoms))

/-- `impl Parse for IncludeAvroInput` (src/lib.rs lines 18-48): parse the
leading string literal into `path` (line 20; no emptiness check is made on
its value), start from `GeneratorBuilder::default()` (line 21), run the
option loop, return the accumulated input and whatever stream remains. -/
def IncludeAvroInput.parse (atoms : List Atom) :
    Option (Except SynError (IncludeAvroInput × List Atom)) :=
  match atoms with
  | .litStr s :: rest =>
    match parseOptions GeneratorBuilder.default rest with
    | none => none
    | some (.error e) => some (.error e)
    | some (.ok (b, rest2)) => some (.ok (⟨s, b⟩, rest2))
  | _ => some (.error ⟨"expected string literal"⟩)

/-- `parse_macro_input!(tokens as IncludeAvroInput)` (src/lib.rs line 180):
run `IncludeAvroInput::parse` and additionally require the stream to be
fully consumed, as `parse_macro_input!` (via `Parse::parse`'s
`parse2`/`ensure all tokens consumed` behavior) does. -/
def parse_macro_input (atoms : List Atom) :
    Option (Except SynError IncludeAvroInput) :=
  match IncludeAvroInput.parse atoms with
  | none => none
  | some (.error e) => some (.error e)
  | some (.ok (v, [])) => some (.ok v)
  | some (.ok (_, _ :: _)) => some (.error ⟨"unexpected token"⟩)

/-- The atoms of one `key = value` option together with its leading comma,
as it appears in the macro invocation's token stream. -/
def optionAtoms : List (String × Expr) → List Atom
  | [] => []
  | (k, v) :: ps => .comma :: .ident k :: .eq :: .expr v :: optionAtoms ps

/-- The full token stream of a macro invocation
`include_avro!("path", k1 = v1, ..., kn = vn ,?)`. -/
def invocationAtoms (path : String) (pairs : List (String × Expr))
    (trailing : Bool) : List Atom :=
  .litStr path :: (optionAtoms pairs ++ if trailing then [.comma] else [])

/-- A configuration value as stored in some builder field, tagged with its
shape, so that "the field selected by key `k`" can be stated uniformly. -/
inductive FieldVal where
  | nat (n : Nat)
  | bool (b : Bool)
  | strs (l : List String)
  | schema (v : ImplementAvroSchema)
deriving Repr, DecidableEq

/-- The builder field a recognized key writes to, as a tagged value;
`none` for an unrecognized key or an unset field. -/
def fieldOf (b : GeneratorBuilder) (key : String) : Option FieldVal :=
  if key = "precision" then b.precision.map FieldVal.nat
  else if key = "use_avro_rs_unions" then b.use_avro_rs_unions.map FieldVal.bool
  else if key = "use_chrono_dates" then b.use_chrono_dates.map FieldVal.bool
  else if key = "derive_builders" then b.derive_builders.map FieldVal.bool
  else if key = "extra_derives" then b.extra_derives.map FieldVal.strs
  else if key = "impl_avro_schema" then b.implement_avro_schema.map FieldVal.schema
  else none

/-- The value a key's value parser extracts from `v` when it succeeds,
`none` when the key is unrecognized or its parser fails or panics. -/
def parsedVal (key : String) (v : Expr) : Option FieldVal :=
  if key = "precision" then (parse_usize v).toOption.map FieldVal.nat
  else if key = "use_avro_rs_unions" then (parse_bool v).toOption.map FieldVal.bool
  else if key = "use_chrono_dates" then (parse_bool v).toOption.map FieldVal.bool
  else if key = "derive_builders" then (parse_bool v).toOption.map FieldVal.bool
  else if key = "extra_derives" then (parse_vec v).toOption.map FieldVal.strs
  else if key = "impl_avro_schema" then
    match parse_enum v with
    | some (.ok x) => some (FieldVal.schema x)
    | _ => none
  else none

/-- A `key = value` pair is valid when the key is recognized and its value
parser succeeds on the value, i.e. exactly when `applyKey` neither errors
nor panics. -/
def ValidPair (p : String × Expr) : Bool :=
  (parsedVal p.1 p.2).isSome

/-- The builder produced by one successful option application: the total
function agreeing with `applyKey` on valid pairs. -/
def applyKeyOk (b : GeneratorBuilder) (p : String × Expr) : GeneratorBuilder :=
  if p.1 = "precision" then
    match parse_usize p.2 with
    | .ok n => { b with precision := some n }
    | .error _ => b
  else if p.1 = "use_avro_rs_unions" then
    match parse_bool p.2 with
    | .ok x => { b with use_avro_rs_unions := some x }
    | .error _ => b
  else if p.1 = "use_chrono_dates" then
    match parse_bool p.2 with
    | .ok x => { b with use_chrono_dates := some x }
    | .error _ => b
  else if p.1 = "derive_builders" then
    match parse_bool p.2 with
    | .ok x => { b with derive_builders := some x }
    | .error _ => b
  else if p.1 = "extra_derives" then
    match parse_vec p.2 with
    | .ok l => { b with extra_derives := some l }
    | .error _ => b
  else if p.1 = "impl_avro_schema" then
    match parse_enum p.2 with
    | some (.ok x) => { b with implement_avro_schema := some x }
    | _ => b
  else b

/-- A non-empty list has a last element. -/
lemma getLast?_isSome_of_ne_nil {α : Type} :
    ∀ l : List α, l ≠ [] → l.getLast?.isSome = true
  | [_], _ => rfl
  | _ :: b :: t, _ => by
    rw [List.getLast?_cons_cons]
    exact getLast?_isSome_of_ne_nil (b :: t) (by simp)

/-- A single-option invocation stands or falls with `applyKey` on that
option. -/
lemma parse_single (path k : String) (v : Expr) :
    parse_macro_input (invocationAtoms path [(k, v)] false) =
      match applyKey GeneratorBuilder.default k v with
      | none => none
      | some (.error e) => some (.error e)
      | some (.ok b) => some (.ok ⟨path, b⟩) := by
  have hstream : invocationAtoms path [(k, v)] false =
      [Atom.litStr path, Atom.comma, Atom.ident k, Atom.eq, Atom.expr v] := by
    simp [invocationAtoms, optionAtoms]
  rw [hstream]
  cases h : applyKey GeneratorBuilder.default k v with
  | none => simp [parse_macro_input, IncludeAvroInput.parse, parseOptions, h]
  | some r =>
    cases r with
    | error e => simp [parse_macro_input, IncludeAvroInput.parse, parseOptions, h]
    | ok b2 => simp [parse_macro_input, IncludeAvroInput.parse, parseOptions, h]

/-- C1 (counterexample): the claim says parsing fails when the leading
string literal's value is empty; in fact `include_avro!("")` parses
successfully, yielding an EMPTY source locator — the source (src/lib.rs
line 20) never checks the literal's value. -/
theorem c1_counterexample :
    parse_macro_input [Atom.litStr ""] =
      some (Except.ok ⟨"", GeneratorBuilder.default⟩) ∧
    ("" : String).length = 0 :=
  ⟨rfl, rfl⟩

/-- C1 (amended): every invocation the parser accepts starts with a string
literal, and the configuration's source locator is exactly that literal's
value; hence parsing fails whenever the leading string literal is absent.
(No non-emptiness check is made: the empty literal is accepted.) -/
theorem c1_locator_from_leading_literal (atoms : List Atom)
    (v : IncludeAvroInput) (h : parse_macro_input atoms = some (Except.ok v)) :
    atoms.head? = some (Atom.litStr v.path) := by
  match atoms with
  | [] => simp [parse_macro_input, IncludeAvroInput.parse] at h
  | Atom.comma :: rest => simp [parse_macro_input, IncludeAvroInput.parse] at h
  | Atom.ident s :: rest => simp [parse_macro_input, IncludeAvroInput.parse] at h
  | Atom.eq :: rest => simp [parse_macro_input, IncludeAvroInput.parse] at h
  | Atom.expr e :: rest => simp [parse_macro_input, IncludeAvroInput.parse] at h
  | Atom.litStr s :: rest =>
    simp only [parse_macro_input, IncludeAvroInput.parse] at h
    cases hpo : parseOptions GeneratorBuilder.default rest with
    | none => rw [hpo] at h; simp at h
    | some r =>
      rw [hpo] at h
      cases r with
      | error e => simp at h
      | ok pr =>
        obtain ⟨b, rest2⟩ := pr
        cases rest2 with
        | nil =>
          simp at h
          rw [List.head?_cons, ← h]
        | cons a t => simp at h

/-- C1 (witness): instantiation of the amended theorem at a concrete
accepted invocation. -/
theorem c1_witness :
    [Atom.litStr "schemas.avsc"].head? =
      some (Atom.litStr
        (IncludeAvroInput.mk "schemas.avsc" GeneratorBuilder.default).path) :=
  c1_locator_from_leading_literal [Atom.litStr "schemas.avsc"]
    ⟨"schemas.avsc", GeneratorBuilder.default⟩ rfl

/-- C2 (counterexample): the claim says the type error for a non-boolean
value names the offending key; the actual error (src/lib.rs line 60) is the
fixed string `Expected boolean (true/false)`, which does not contain the
key's name. -/
theorem c2_counterexample :
    parse_macro_input
        (invocationAtoms "p.avsc" [("use_avro_rs_unions", Expr.litInt 5)] false) =
      some (Except.error ⟨"Expected boolean (true/false)"⟩) ∧
    ¬ ("use_avro_rs_unions".data <:+: "Expected boolean (true/false)".data) :=
  ⟨rfl, by decide⟩

/-- C2 (amended): for each of the three boolean-valued keys, `true`/`false`
sets the corresponding field to that value, and any non-boolean value makes
parsing fail with the fixed type error `Expected boolean (true/false)`
(which does not name the key). -/
theorem c2_bool_keys (key : String)
    (hkey : key = "use_avro_rs_unions" ∨ key = "use_chrono_dates" ∨
      key = "derive_builders") :
    (∀ (path : String) (b : Bool), ∃ out : IncludeAvroInput,
      parse_macro_input (invocationAtoms path [(key, Expr.litBool b)] false) =
        some (Except.ok out) ∧
      out.path = path ∧ fieldOf out.builder key = some (FieldVal.bool b)) ∧
    (∀ (path : String) (e : Expr), e.isBoolLit = false →
      parse_macro_input (invocationAtoms path [(key, e)] false) =
        some (Except.error ⟨"Expected boolean (true/false)"⟩)) := by
  rcases hkey with h | h | h <;> subst h <;> constructor
  · intro path b
    exact ⟨⟨path, { GeneratorBuilder.default with use_avro_rs_unions := some b }⟩,
      rfl, rfl, rfl⟩
  · intro path e he
    cases e <;> first | rfl | simp [Expr.isBoolLit] at he
  · intro path b
    exact ⟨⟨path, { GeneratorBuilder.default with use_chrono_dates := some b }⟩,
      rfl, rfl, rfl⟩
  · intro path e he
    cases e <;> first | rfl | simp [Expr.isBoolLit] at he
  · intro path b
    exact ⟨⟨path, { GeneratorBuilder.default with derive_builders := some b }⟩,
      rfl, rfl, rfl⟩
  · intro path e he
    cases e <;> first | rfl | simp [Expr.isBoolLit] at he

/-- C2 (witness): the amended theorem at concrete inputs, exercising both
the success and the failure branch. -/
theorem c2_witness :
    (∃ out : IncludeAvroInput,
      parse_macro_input
          (invocationAtoms "p.avsc" [("use_chrono_dates", Expr.litBool true)] false) =
        some (Except.ok out) ∧
      out.path = "p.avsc" ∧
      fieldOf out.builder "use_chrono_dates" = some (FieldVal.bool true)) ∧
    parse_macro_input
        (invocationAtoms "p.avsc" [("use_chrono_dates", Expr.litStr "yes")] false) =
      some (Except.error ⟨"Expected boolean (true/false)"⟩) :=
  ⟨(c2_bool_keys "use_chrono_dates" (Or.inr (Or.inl rfl))).1 "p.avsc" true,
    (c2_bool_keys "use_chrono_dates" (Or.inr (Or.inl rfl))).2 "p.avsc"
      (Expr.litStr "yes") rfl⟩

/-- C3: `extra_derives` maps an all-string array to the list of values in
order; an array with non-string elements yields exactly the string-literal
values (others silently dropped, `["A", 5]` gives `["A"]`); a non-array
value is the fixed parse error. -/
theorem c3_extra_derives :
    (∀ l : List String, parse_vec (Expr.array (l.map Expr.litStr)) = Except.ok l) ∧
    (parse_vec (Expr.array [Expr.litStr "A", Expr.litInt 5]) = Except.ok ["A"]) ∧
    (∀ es : List Expr,
      parse_vec (Expr.array es) = Except.ok (es.filterMap Expr.strLitVal)) ∧
    (∀ e : Expr, e.isArray = false →
      parse_vec e = Except.error ⟨"Expected array of strings: [\"A\", \"B\"]"⟩) := by
  have hfm : ∀ es : List Expr, collectStrs es = es.filterMap Expr.strLitVal := by
    intro es
    induction es with
    | nil => rfl
    | cons e rest ih => cases e <;> simp [collectStrs, Expr.strLitVal, ih]
  have hmap : ∀ l : List String, collectStrs (l.map Expr.litStr) = l := by
    intro l
    induction l with
    | nil => rfl
    | cons s r ih => simp [collectStrs, ih]
  refine ⟨?_, rfl, ?_, ?_⟩
  · intro l
    rw [show parse_vec (Expr.array (l.map Expr.litStr)) =
      Except.ok (collectStrs (l.map Expr.litStr)) from rfl, hmap]
  · intro es
    rw [show parse_vec (Expr.array es) = Except.ok (collectStrs es) from rfl, hfm]
  · intro e he
    cases e <;> first | rfl | simp [Expr.isArray] at he

/-- C3 (witness): the theorem's universally quantified parts at concrete
inputs, discharging the non-array hypothesis. -/
theorem c3_witness :
    parse_vec (Expr.array ((["A", "B"] : List String).map Expr.litStr)) =
      Except.ok ["A", "B"] ∧
    parse_vec (Expr.litInt 7) =
      Except.error ⟨"Expected array of strings: [\"A\", \"B\"]"⟩ :=
  ⟨c3_extra_derives.1 ["A", "B"], c3_extra_derives.2.2.2 (Expr.litInt 7) rfl⟩

/-- C5: `impl_avro_schema` takes the last segment of a path value and
matches it case-sensitively against exactly `None`, `Derive`,
`CopyBuildSchema`; any other last segment is the unknown-variant error and
any non-path value is `Expected Enum variant`. -/
theorem c5_impl_avro_schema :
    (∀ (pre : List String) (lastSeg : String),
      parse_enum (Expr.path (pre ++ [lastSeg])) = some (variantOf lastSeg)) ∧
    variantOf "None" = Except.ok ImplementAvroSchema.None ∧
    variantOf "Derive" = Except.ok ImplementAvroSchema.Derive ∧
    variantOf "CopyBuildSchema" = Except.ok ImplementAvroSchema.CopyBuildSchema ∧
    (∀ s : String,
      s ∉ (["None", "Derive", "CopyBuildSchema"] : List String) →
      variantOf s = Except.error ⟨"Unknown variant for ImplementAvroSchema"⟩) ∧
    (∀ e : Expr, e.isPath = false →
      parse_enum e = some (Except.error ⟨"Expected Enum variant"⟩)) := by
  refine ⟨?_, rfl, rfl, rfl, ?_, ?_⟩
  · intro pre lastSeg
    have : (pre ++ [lastSeg]).getLast? = some lastSeg := by
      rw [List.getLast?_concat]
    simp [parse_enum, this]
  · intro s hs
    simp only [List.mem_cons, List.not_mem_nil, or_false, not_or] at hs
    obtain ⟨h1, h2, h3⟩ := hs
    unfold variantOf
    rw [if_neg h1, if_neg h2, if_neg h3]
  · intro e he
    cases e <;> first | rfl | simp [Expr.isPath] at he

/-- C5 (witness): the theorem at concrete inputs, discharging the
unknown-variant and non-path hypotheses. -/
theorem c5_witness :
    variantOf "Bogus" = Except.error ⟨"Unknown variant for ImplementAvroSchema"⟩ ∧
    parse_enum Expr.litOther = some (Except.error ⟨"Expected Enum variant"⟩) ∧
    parse_enum (Expr.path (["aileron"] ++ ["Derive"])) = some (variantOf "Derive") :=
  ⟨c5_impl_avro_schema.2.2.2.2.1 "Bogus" (by decide),
    c5_impl_avro_schema.2.2.2.2.2 Expr.litOther rfl,
    c5_impl_avro_schema.1 ["aileron"] "Derive"⟩

/-- C6: any key outside the recognized set fails with `Unknown flag: {key}`,
whose message contains the key's name. -/
theorem c6_unknown_flag (path key : String) (e : Expr) (rest : List Atom)
    (h : key ∉ (["precision", "use_avro_rs_unions", "use_chrono_dates",
      "derive_builders", "extra_derives", "impl_avro_schema"] : List String)) :
    parse_macro_input (Atom.litStr path :: Atom.comma :: Atom.ident key ::
        Atom.eq :: Atom.expr e :: rest) =
      some (Except.error ⟨"Unknown flag: " ++ key⟩) ∧
    key.data <:+: ("Unknown flag: " ++ key).data := by
  simp only [List.mem_cons, List.not_mem_nil, or_false, not_or] at h
  obtain ⟨h1, h2, h3, h4, h5, h6⟩ := h
  constructor
  · simp [parse_macro_input, IncludeAvroInput.parse, parseOptions, applyKey,
      if_neg h1, if_neg h2, if_neg h3, if_neg h4, if_neg h5, if_neg h6]
  · refine ⟨"Unknown flag: ".data, [], ?_⟩
    simp [String.data_append]

/-- C6 (witness): an unrecognized key at a concrete invocation. -/
theorem c6_witness :
    parse_macro_input [Atom.litStr "x", Atom.comma, Atom.ident "foo", Atom.eq,
        Atom.expr (Expr.litBool true)] =
      some (Except.error ⟨"Unknown flag: " ++ "foo"⟩) ∧
    "foo".data <:+: ("Unknown flag: " ++ "foo").data :=
  c6_unknown_flag "x" "foo" (Expr.litBool true) [] (by decide)

/-- C7 (counterexample): the claim says every non-negative integer literal
sets the precision field; a literal exceeding `usize::MAX` (here `2 ^ 64`
on a 64-bit target) instead makes parsing fail with the overflow error of
`base10_parse::<usize>` (src/lib.rs line 71). -/
theorem c7_counterexample :
    parse_macro_input
        (invocationAtoms "p.avsc" [("precision", Expr.litInt (2 ^ 64))] false) =
      some (Except.error ⟨"number too large to fit in target type"⟩) := rfl

/-- C7 (amended): a non-negative integer literal that fits in `usize` sets
the precision field to exactly that value; a negative literal (which
expression parsing turns into a unary-minus expression) or any non-integer
expression fails with the type error `Expected integer`; literals above
`usize::MAX` fail with the overflow error. -/
theorem c7_precision (path : String) (n : Nat) (hn : n ≤ USIZE_MAX) :
    (parse_macro_input (invocationAtoms path [("precision", Expr.litInt n)] false) =
      some (Except.ok ⟨path, { GeneratorBuilder.default with precision := some n }⟩)) ∧
    (∀ m : Nat, parse_macro_input
        (invocationAtoms path [("precision", Expr.neg (Expr.litInt m))] false) =
      some (Except.error ⟨"Expected integer"⟩)) ∧
    (∀ e : Expr, e.isIntLit = false →
      parse_macro_input (invocationAtoms path [("precision", e)] false) =
        some (Except.error ⟨"Expected integer"⟩)) := by
  refine ⟨?_, fun m => rfl, fun e he => ?_⟩
  · have hb : base10_parse n = Except.ok n := by
      unfold base10_parse
      rw [if_pos hn]
    have h1 : applyKey GeneratorBuilder.default "precision" (Expr.litInt n) =
        some ((base10_parse n).map
          fun x => { GeneratorBuilder.default with precision := some x }) := rfl
    rw [parse_single, h1, hb]
    rfl
  · cases e <;> first | rfl | simp [Expr.isIntLit] at he

/-- C7 (witness): the amended theorem at concrete inputs, exercising the
in-range, negative and non-integer branches. -/
theorem c7_witness :
    (parse_macro_input (invocationAtoms "p" [("precision", Expr.litInt 4)] false) =
      some (Except.ok ⟨"p", { GeneratorBuilder.default with precision := some 4 }⟩)) ∧
    (parse_macro_input
        (invocationAtoms "p" [("precision", Expr.neg (Expr.litInt 4))] false) =
      some (Except.error ⟨"Expected integer"⟩)) ∧
    (parse_macro_input (invocationAtoms "p" [("precision", Expr.litStr "4")] false) =
      some (Except.error ⟨"Expected integer"⟩)) :=
  ⟨(c7_precision "p" 4 (by decide)).1,
    (c7_precision "p" 4 (by decide)).2.1 4,
    (c7_precision "p" 4 (by decide)).2.2 (Expr.litStr "4") rfl⟩

/-- C8: an invocation of a single string literal, with or without a
trailing comma, parses to a configuration whose locator is the literal's
value and all of whose option fields are unset. -/
theorem c8_defaults (s : String) :
    parse_macro_input (invocationAtoms s [] false) =
      some (Except.ok ⟨s, ⟨none, none, none, none, none, none⟩⟩) ∧
    parse_macro_input (invocationAtoms s [] true) =
      some (Except.ok ⟨s, ⟨none, none, none, none, none, none⟩⟩) :=
  ⟨rfl, rfl⟩

/-- C9: an integer literal exceeding `usize::MAX` makes `parse_usize`, and
hence the whole invocation, fail with the overflow error — the value is
neither wrapped nor truncated. -/
theorem c9_overflow (n : Nat) (h : USIZE_MAX < n) :
    parse_usize (Expr.litInt n) =
      Except.error ⟨"number too large to fit in target type"⟩ ∧
    ∀ path : String,
      parse_macro_input (invocationAtoms path [("precision", Expr.litInt n)] false) =
        some (Except.error ⟨"number too large to fit in target type"⟩) := by
  have hb : base10_parse n =
      Except.error ⟨"number too large to fit in target type"⟩ := by
    unfold base10_parse
    rw [if_neg (not_le.mpr h)]
  constructor
  · show base10_parse n = _
    exact hb
  · intro path
    have h1 : applyKey GeneratorBuilder.default "precision" (Expr.litInt n) =
        some ((base10_parse n).map
          fun x => { GeneratorBuilder.default with precision := some x }) := rfl
    rw [parse_single, h1, hb]
    rfl

/-- C9 (witness): the overflow theorem at the concrete literal `2 ^ 64`. -/
theorem c9_witness :
    parse_usize (Expr.litInt (2 ^ 64)) =
      Except.error ⟨"number too large to fit in target type"⟩ ∧
    parse_macro_input
        (invocationAtoms "s" [("precision", Expr.litInt (2 ^ 64))] false) =
      some (Except.error ⟨"number too large to fit in target type"⟩) :=
  ⟨(c9_overflow (2 ^ 64) (by decide)).1, (c9_overflow (2 ^ 64) (by decide)).2 "s"⟩

/-- C10: on every expression `syn` expression parsing can produce (all path
segment lists non-empty), `parse_enum` never reaches the panicking
`unwrap`: it returns a variant or a parse error. -/
theorem c10_parse_enum_total (e : Expr) (h : e.wf = true) :
    (parse_enum e).isSome = true := by
  cases e with
  | path segs =>
    have hne : segs ≠ [] := by
      simp only [Expr.wf, Bool.not_eq_eq_eq_not, Bool.not_true] at h
      intro hc
      rw [hc] at h
      simp at h
    have := getLast?_isSome_of_ne_nil segs hne
    cases hg : segs.getLast? with
    | none => rw [hg] at this; simp at this
    | some x => simp [parse_enum, hg]
  | litBool b => rfl
  | litInt n => rfl
  | litStr s => rfl
  | litOther => rfl
  | array es => rfl
  | neg e2 => rfl
  | other => rfl

/-- C10 (witness): totality at a concrete well-formed path expression. -/
theorem c10_witness : (parse_enum (Expr.path ["Derive"])).isSome = true :=
  c10_parse_enum_total (Expr.path ["Derive"]) rfl

/-- On a valid pair, `applyKey` succeeds and produces `applyKeyOk`. -/
lemma applyKey_valid (b : GeneratorBuilder) (k : String) (v : Expr)
    (h : ValidPair (k, v) = true) :
    applyKey b k v = some (Except.ok (applyKeyOk b (k, v))) := by
  unfold ValidPair parsedVal at h
  unfold applyKey applyKeyOk
  dsimp only at h ⊢
  by_cases h1 : k = "precision"
  · subst h1
    cases hp : parse_usize v with
    | ok n => rfl
    | error err => rw [hp] at h; simp [Except.toOption] at h
  · simp only [if_neg h1] at h ⊢
    by_cases h2 : k = "use_avro_rs_unions"
    · subst h2
      cases hp : parse_bool v with
      | ok x => rfl
      | error err => rw [hp] at h; simp [Except.toOption] at h
    · simp only [if_neg h2] at h ⊢
      by_cases h3 : k = "use_chrono_dates"
      · subst h3
        cases hp : parse_bool v with
        | ok x => rfl
        | error err => rw [hp] at h; simp [Except.toOption] at h
      · simp only [if_neg h3] at h ⊢
        by_cases h4 : k = "derive_builders"
        · subst h4
          cases hp : parse_bool v with
          | ok x => rfl
          | error err => rw [hp] at h; simp [Except.toOption] at h
        · simp only [if_neg h4] at h ⊢
          by_cases h5 : k = "extra_derives"
          · subst h5
            cases hp : parse_vec v with
            | ok l => rfl
            | error err => rw [hp] at h; simp [Except.toOption] at h
          · simp only [if_neg h5] at h ⊢
            by_cases h6 : k = "impl_avro_schema"
            · subst h6
              cases hp : parse_enum v with
              | none => rw [hp] at h; simp at h
              | some r =>
                cases r with
                | ok x => rfl
                | error err => rw [hp] at h; simp at h
            · simp only [if_neg h6] at h
              simp at h

/-- Applying an option whose key is not `precision` leaves the `precision`
field unchanged. -/
lemma applyKeyOk_ne_precision (b : GeneratorBuilder) (p : String × Expr)
    (h : p.1 ≠ "precision") :
    (applyKeyOk b p).precision = b.precision := by
  unfold applyKeyOk
  split_ifs <;>
    first
      | rfl
      | (exact absurd (by assumption) h)
      | (split <;> rfl)

/-- Applying an option whose key is not `use_avro_rs_unions` leaves that
field unchanged. -/
lemma applyKeyOk_ne_unions (b : GeneratorBuilder) (p : String × Expr)
    (h : p.1 ≠ "use_avro_rs_unions") :
    (applyKeyOk b p).use_avro_rs_unions = b.use_avro_rs_unions := by
  unfold applyKeyOk
  split_ifs <;>
    first
      | rfl
      | (exact absurd (by assumption) h)
      | (split <;> rfl)

/-- Applying an option whose key is not `use_chrono_dates` leaves that
field unchanged. -/
lemma applyKeyOk_ne_chrono (b : GeneratorBuilder) (p : String × Expr)
    (h : p.1 ≠ "use_chrono_dates") :
    (applyKeyOk b p).use_chrono_dates = b.use_chrono_dates := by
  unfold applyKeyOk
  split_ifs <;>
    first
      | rfl
      | (exact absurd (by assumption) h)
      | (split <;> rfl)

/-- Applying an option whose key is not `derive_builders` leaves that field
unchanged. -/
lemma applyKeyOk_ne_builders (b : GeneratorBuilder) (p : String × Expr)
    (h : p.1 ≠ "derive_builders") :
    (applyKeyOk b p).derive_builders = b.derive_builders := by
  unfold applyKeyOk
  split_ifs <;>
    first
      | rfl
      | (exact absurd (by assumption) h)
      | (split <;> rfl)

/-- Applying an option whose key is not `extra_derives` leaves that field
unchanged. -/
lemma applyKeyOk_ne_derives (b : GeneratorBuilder) (p : String × Expr)
    (h : p.1 ≠ "extra_derives") :
    (applyKeyOk b p).extra_derives = b.extra_derives := by
  unfold applyKeyOk
  split_ifs <;>
    first
      | rfl
      | (exact absurd (by assumption) h)
      | (split <;> rfl)

/-- Applying an option whose key is not `impl_avro_schema` leaves that
field unchanged. -/
lemma applyKeyOk_ne_schema (b : GeneratorBuilder) (p : String × Expr)
    (h : p.1 ≠ "impl_avro_schema") :
    (applyKeyOk b p).implement_avro_schema = b.implement_avro_schema := by
  unfold applyKeyOk
  split_ifs <;>
    first
      | rfl
      | (exact absurd (by assumption) h)
      | (split <;> rfl)

/-- Applying an option for a key other than `k` leaves the field selected
by `k` unchanged. -/
lemma fieldOf_applyKeyOk_ne (b : GeneratorBuilder) (p : String × Expr)
    (k : String) (hne : p.1 ≠ k) :
    fieldOf (applyKeyOk b p) k = fieldOf b k := by
  unfold fieldOf
  split_ifs with h1 h2 h3 h4 h5 h6
  · rw [applyKeyOk_ne_precision b p fun hc => hne (hc.trans h1.symm)]
  · rw [applyKeyOk_ne_unions b p fun hc => hne (hc.trans h2.symm)]
  · rw [applyKeyOk_ne_chrono b p fun hc => hne (hc.trans h3.symm)]
  · rw [applyKeyOk_ne_builders b p fun hc => hne (hc.trans h4.symm)]
  · rw [applyKeyOk_ne_derives b p fun hc => hne (hc.trans h5.symm)]
  · rw [applyKeyOk_ne_schema b p fun hc => hne (hc.trans h6.symm)]
  · rfl

/-- Applying a valid option writes exactly its parsed value into the field
its key selects. -/
lemma fieldOf_applyKeyOk_self (b : GeneratorBuilder) (p : String × Expr)
    (h : ValidPair p = true) :
    fieldOf (applyKeyOk b p) p.1 = parsedVal p.1 p.2 := by
  obtain ⟨k, v⟩ := p
  unfold ValidPair parsedVal at h
  unfold fieldOf applyKeyOk parsedVal
  dsimp only at h ⊢
  by_cases h1 : k = "precision"
  · subst h1
    cases hp : parse_usize v with
    | ok n => rfl
    | error err => rw [hp] at h; simp [Except.toOption] at h
  · simp only [if_neg h1] at h ⊢
    by_cases h2 : k = "use_avro_rs_unions"
    · subst h2
      cases hp : parse_bool v with
      | ok x => rfl
      | error err => rw [hp] at h; simp [Except.toOption] at h
    · simp only [if_neg h2] at h ⊢
      by_cases h3 : k = "use_chrono_dates"
      · subst h3
        cases hp : parse_bool v with
        | ok x => rfl
        | error err => rw [hp] at h; simp [Except.toOption] at h
      · simp only [if_neg h3] at h ⊢
        by_cases h4 : k = "derive_builders"
        · subst h4
          cases hp : parse_bool v with
          | ok x => rfl
          | error err => rw [hp] at h; simp [Except.toOption] at h
        · simp only [if_neg h4] at h ⊢
          by_cases h5 : k = "extra_derives"
          · subst h5
            cases hp : parse_vec v with
            | ok l => rfl
            | error err => rw [hp] at h; simp [Except.toOption] at h
          · simp only [if_neg h5] at h ⊢
            by_cases h6 : k = "impl_avro_schema"
            · subst h6
              cases hp : parse_enum v with
              | none => rw [hp] at h; simp at h
              | some r =>
                cases r with
                | ok x => rfl
                | error err => rw [hp] at h; simp at h
            · simp only [if_neg h6] at h
              simp at h

/-- The option loop on a stream of valid options (with or without a
trailing comma) succeeds, consumes everything, and folds the options into
the builder from left to right. -/
lemma parseOptions_valid (pairs : List (String × Expr)) :
    ∀ (b : GeneratorBuilder) (trailing : Bool),
      (∀ p ∈ pairs, ValidPair p = true) →
      parseOptions b (optionAtoms pairs ++ (if trailing then [Atom.comma] else [])) =
        some (Except.ok (pairs.foldl applyKeyOk b, [])) := by
  induction pairs with
  | nil =>
    intro b trailing _
    cases trailing <;> rfl
  | cons p ps ih =>
    intro b trailing hval
    obtain ⟨k, v⟩ := p
    have h1 := applyKey_valid b k v (hval _ (by simp))
    simp only [optionAtoms, List.cons_append]
    rw [parseOptions, h1]
    simp only [List.foldl_cons]
    exact ih (applyKeyOk b (k, v)) trailing fun q hq => hval q (by simp [hq])

/-- A full invocation made of a path literal and valid options parses into
the left fold of the options over the default builder. -/
lemma parse_valid (path : String) (pairs : List (String × Expr))
    (trailing : Bool) (hval : ∀ p ∈ pairs, ValidPair p = true) :
    parse_macro_input (invocationAtoms path pairs trailing) =
      some (Except.ok ⟨path, pairs.foldl applyKeyOk GeneratorBuilder.default⟩) := by
  unfold invocationAtoms
  simp only [parse_macro_input, IncludeAvroInput.parse,
    parseOptions_valid pairs GeneratorBuilder.default trailing hval]

/-- Folding valid options leaves, in the field selected by `k`, the parsed
value of the last option whose key is `k`. -/
lemma foldl_lastWins (pairs : List (String × Expr)) :
    ∀ (b : GeneratorBuilder) (k : String) (q : String × Expr),
      (∀ p ∈ pairs, ValidPair p = true) →
      (pairs.filter fun p => p.1 == k).getLast? = some q →
      fieldOf (pairs.foldl applyKeyOk b) k = parsedVal k q.2 := by
  induction pairs using List.reverseRecOn with
  | nil => intro b k q _ hlast; simp at hlast
  | append_singleton l a ih =>
    intro b k q hval hlast
    rw [List.foldl_append, List.foldl_cons, List.foldl_nil]
    rw [List.filter_append] at hlast
    by_cases hk : (a.1 == k) = true
    · have ha : a.1 = k := by simpa using hk
      have hfa : List.filter (fun p => p.1 == k) [a] = [a] := by
        simp [List.filter, hk]
      rw [hfa, List.getLast?_concat] at hlast
      have hqa : q = a := (Option.some.inj hlast).symm
      rw [hqa, ← ha]
      exact fieldOf_applyKeyOk_self _ a (hval a (by simp))
    · have hfa : List.filter (fun p => p.1 == k) [a] = [] := by
        simp [List.filter, hk]
      rw [hfa, List.append_nil] at hlast
      rw [fieldOf_applyKeyOk_ne _ a k (by simpa using hk)]
      exact ih b k q (fun p hp => hval p (by simp [hp])) hlast

/-- C4: an invocation whose options are all well-formed parses successfully
even when a key repeats (no duplicate-key error), and the configuration
holds, for each key, the parsed value of that key's last occurrence
(last-write-wins). -/
theorem c4_last_write_wins (path : String) (pairs : List (String × Expr))
    (trailing : Bool) (k : String) (q : String × Expr)
    (hval : ∀ p ∈ pairs, ValidPair p = true)
    (hlast : (pairs.filter fun p => p.1 == k).getLast? = some q) :
    parse_macro_input (invocationAtoms path pairs trailing) =
      some (Except.ok ⟨path, pairs.foldl applyKeyOk GeneratorBuilder.default⟩) ∧
    fieldOf (pairs.foldl applyKeyOk GeneratorBuilder.default) k =
      parsedVal k q.2 :=
  ⟨parse_valid path pairs trailing hval,
    foldl_lastWins pairs GeneratorBuilder.default k q hval hlast⟩

/-- C4 (witness): `precision` given twice; parsing succeeds and the field
holds the second value `7`. -/
theorem c4_witness :
    parse_macro_input (invocationAtoms "x"
        [("precision", Expr.litInt 1), ("precision", Expr.litInt 7)] true) =
      some (Except.ok ⟨"x",
        [("precision", Expr.litInt 1), ("precision", Expr.litInt 7)].foldl
          applyKeyOk GeneratorBuilder.default⟩) ∧
    fieldOf ([("precision", Expr.litInt 1), ("precision", Expr.litInt 7)].foldl
        applyKeyOk GeneratorBuilder.default) "precision" =
      parsedVal "precision" (Expr.litInt 7) :=
  c4_last_write_wins "x"
    [("precision", Expr.litInt 1), ("precision", Expr.litInt 7)] true
    "precision" ("precision", Expr.litInt 7)
    (by intro p hp; simp only [List.mem_cons, List.not_mem_nil, or_false] at hp
        rcases hp with h | h <;> subst h <;> rfl)
    rfl

end Aileron
